import Mathlib

/-!
Shallow embedding of `src/tools/code_navigator.py`, a tree-sitter based
extractor of top-level function and class/type definitions, together with
proofs about its specified behavior.

The script's own logic (extension classification, parser dispatch, record
building, directory walking, report assembly, exit codes) is embedded as
executable Lean definitions.  Everything the script delegates to the outside
world — the `tree_sitter` library, the per-grammar support packages, the
filesystem — is an explicit environment parameter `Env`.
-/

namespace CodeNavigator

/-- Row and column of a syntax-tree node endpoint (tree-sitter point, rows 0-indexed). -/
structure Point where
  row : Nat
  col : Nat
deriving DecidableEq

/-- Span data of a syntax-tree node as used by the script: `start_byte`/`end_byte`
(byte slice of the source, end exclusive) and `start_point`/`end_point`. -/
structure Node where
  start_byte : Nat
  end_byte : Nat
  start_point : Point
  end_point : Point
deriving DecidableEq

/-- One entry of a report value list: a definition record
`\x7b"type": t, "name": n, "start_line": s, "end_line": e\x7d` (constructor `defn`)
or an error record `\x7b"error": msg\x7d` (constructor `err`). -/
inductive Entry where
  | defn (type_ : String) (name : String) (start_line : Nat) (end_line : Nat)
  | err (msg : String)
deriving DecidableEq

/-- Modelled from the spec: the external world the script runs against, which is not
part of the repository — whether the `tree_sitter` library imports at startup (§7
fatal/startup), which `tree_sitter_<lang>` grammar support packages import (§4.2),
what reading a file's bytes yields (bytes, or the OS error message the caught
exception stringifies to), what the external `query.captures(root_node)` call
returns for the fixed per-language query on given content (§4.3), and the
filesystem shape seen by `Path.exists`, `Path.is_file` and `os.walk`. -/
structure Env where
  tsAvailable : Bool
  grammarAvailable : String → Bool
  readFile : String → Except String (List Nat)
  parseCaptures : String → List Nat → List (Node × String)
  pathExists : String → Bool
  isFile : String → Bool
  walkFiles : String → List String

/-- The `EXT_TO_LANG` table of the script, in its source order. -/
def EXT_TO_LANG : List (String × String) :=
  [(".py", "python"), (".js", "javascript"), (".go", "go"),
   (".c", "c"), (".cpp", "cpp"), (".h", "c"), (".hpp", "cpp")]

/-- Dictionary lookup `EXT_TO_LANG.get(ext)` (keys are unique, so first match equals
dict semantics). -/
def extToLangGet (ext : String) : Option String :=
  EXT_TO_LANG.lookup ext

/-- Python's `str.endswith`, on the UTF-8-free character level. -/
def strEndsWith (s post : String) : Bool :=
  post.data.isSuffixOf s.data

/-- Python's substring test `needle in hay`. -/
def strContains (hay needle : String) : Bool :=
  (List.range (hay.data.length + 1)).any fun i => needle.data.isPrefixOf (hay.data.drop i)

/-- Byte encoding of the ASCII sources used as concrete inputs (UTF-8 is the
identity on ASCII code points). -/
def strBytes (s : String) : List Nat :=
  s.data.map Char.toNat

/-- Python's `bytes.decode("utf-8")` restricted to the ASCII range, on which UTF-8
decoding is the identity on code points; all concrete inputs here are ASCII. -/
def decodeBytes (bs : List Nat) : String :=
  String.mk (bs.map Char.ofNat)

/-- The script's `get_parser`: each of the five known grammar identifiers imports its
`tree_sitter_<lang>` package and returns a parser bound to that grammar, `None` when
the import raises `ImportError`; any other identifier returns `None`.  The five
`elif` branches are condensed into one membership test, since each branch consults
exactly the availability of its own `lang_name`.  The parser object itself carries
no further data the script reads, so it is `Unit`. -/
def getParser (env : Env) (lang_name : String) : Option Unit :=
  if lang_name = "python" ∨ lang_name = "javascript" ∨ lang_name = "go" ∨
      lang_name = "c" ∨ lang_name = "cpp" then
    (if env.grammarAvailable lang_name then some () else none)
  else none

/-- The grammars for which `extract_definitions` builds a pattern query; the final
`else` branch (C and C++) returns an empty list instead. -/
def hasQuery (lang_name : String) : Bool :=
  lang_name == "python" || lang_name == "javascript" || lang_name == "go"

/-- The script's `extract_definitions`: obtain a parser (`None` → `[]`), read the
file's bytes (exception → one `\x7b"error": str(e)\x7d` record), and for the three
grammars with a query run it and, for every capture whose tag ends in `.name`, emit
one record — `type` is `"function"` when `"func"` occurs in the tag and `"class"`
otherwise, `name` is the decoded byte slice of the captured node, and the line
numbers are the captured node's rows converted from 0- to 1-indexed.  The query
construction and execution are external; `env.parseCaptures lang content` stands for
`tree.language.query(<per-language pattern>).captures(root_node)`. -/
def extract_definitions (env : Env) (file_path : String) (lang_name : String) :
    List Entry :=
  match getParser env lang_name with
  | none => []
  | some _ =>
    match env.readFile file_path with
    | Except.error e => [Entry.err e]
    | Except.ok content =>
      if hasQuery lang_name then
        ((env.parseCaptures lang_name content).filter fun c =>
            strEndsWith c.2 ".name").map fun c =>
          Entry.defn
            (if strContains c.2 "func" then "function" else "class")
            (decodeBytes ((content.drop c.1.start_byte).take
              (c.1.end_byte - c.1.start_byte)))
            (c.1.start_point.row + 1)
            (c.1.end_point.row + 1)
      else []

/-- The final path component, as `pathlib.PurePath.name` (POSIX separator). -/
def pathName (p : String) : String :=
  String.mk ((p.data.reverse.takeWhile fun c => c != '/').reverse)

/-- Index of the last dot of a character list, when present. -/
def lastDotIdx (cs : List Char) : Option Nat :=
  (List.range cs.length).foldl
    (fun acc j => if cs.get? j == some '.' then some j else acc) none

/-- The `pathlib.PurePath.suffix` of a path: with `i` the index of the name's last
dot, the name from `i` on when `0 < i < len(name) - 1`, else the empty string; in
particular a name that IS an extension, such as `.py`, has no suffix. -/
def pathSuffix (p : String) : String :=
  let cs := (pathName p).data
  match lastDotIdx cs with
  | some i => if 0 < i ∧ i < cs.length - 1 then String.mk (cs.drop i) else ""
  | none => ""

/-- One iteration of the `scan_directory` loop body for file path `fp`, threading the
accumulated report (the script's `structure` dict; insertion order preserved as an
association list, keys distinct since `os.walk` yields each file once). -/
def scanStep (env : Env) (acc : List (String × List Entry)) (fp : String) :
    List (String × List Entry) :=
  if (EXT_TO_LANG.any fun p => strEndsWith fp p.1) = true then
    match extToLangGet (pathSuffix fp) with
    | some lang =>
      if extract_definitions env fp lang = [] then acc
      else acc ++ [(fp, extract_definitions env fp lang)]
    | none => acc
  else acc

/-- The script's `scan_directory`: fold the loop body over the files `os.walk`
yields under `root` (already joined to full paths). -/
def scan_directory (env : Env) (root : String) : List (String × List Entry) :=
  (env.walkFiles root).foldl (scanStep env) []

/-- Outcome of one run of the script: startup import failure (exit 1), missing
target path (exit 1), single-file branch with unsupported extension (message on
stderr, normal exit), or a printed report (single-file or directory mode). -/
inductive ProgResult where
  | importError
  | missingPath
  | unsupportedExt (ext : String)
  | report (r : List (String × List Entry))
deriving DecidableEq

/-- The script end to end: the module-level `tree_sitter` import guard, then `main` —
existence check, then the file branch (classify by suffix; supported → single-key
report, unsupported → stderr message and fall-through) or the directory branch. -/
def program (env : Env) (path : String) : ProgResult :=
  if env.tsAvailable = false then ProgResult.importError
  else if env.pathExists path = false then ProgResult.missingPath
  else if env.isFile path = true then
    match extToLangGet (pathSuffix path) with
    | some lang => ProgResult.report [(path, extract_definitions env path lang)]
    | none => ProgResult.unsupportedExt (pathSuffix path)
  else ProgResult.report (scan_directory env path)

/-- Process exit code of each outcome: `sys.exit(1)` on the import guard and on a
missing path; every other branch reaches the end of `main` and exits 0. -/
def exitCode : ProgResult → Nat
  | ProgResult.importError => 1
  | ProgResult.missingPath => 1
  | ProgResult.unsupportedExt _ => 0
  | ProgResult.report _ => 0

/-- Source text of the spec's worked example `a.py`. -/
def fooSrc : String := "def foo():\n    pass\n"

/-- Bytes of `fooSrc`. -/
def fooBytes : List Nat := strBytes fooSrc

/-- Modelled from the spec: the captures the external tree-sitter python query
produces on `fooSrc` (§4.3: the query binds a definition-node label and a name-node
label per declaration).  The `function_definition` node spans bytes 0–19, rows 0–1
(`@func.def`); its name `foo` is the identifier at bytes 4–7 on row 0
(`@func.name`); captures are listed in document order. -/
def pyFooCaptures : List (Node × String) :=
  [(⟨0, 19, ⟨0, 0⟩, ⟨1, 8⟩⟩, "func.def"),
   (⟨4, 7, ⟨0, 4⟩, ⟨0, 7⟩⟩, "func.name")]

/-- Concrete environment: python grammar installed, `a.py` (also reachable as
`r/a.py` under directory root `r`) holds `fooSrc`, every other path unreadable. -/
def envPy : Env where
  tsAvailable := true
  grammarAvailable := fun l => l == "python"
  readFile := fun p =>
    if p == "a.py" || p == "r/a.py" then Except.ok fooBytes
    else Except.error "Permission denied"
  parseCaptures := fun l bs =>
    if l == "python" && bs == fooBytes then pyFooCaptures else []
  pathExists := fun p => p == "a.py" || p == "r"
  isFile := fun p => p == "a.py"
  walkFiles := fun r => if r == "r" then ["r/a.py"] else []

/-- Concrete environment: no grammar support package installed at all, and every
file unreadable. -/
def envNoGrammar : Env where
  tsAvailable := true
  grammarAvailable := fun _ => false
  readFile := fun _ => Except.error "Permission denied"
  parseCaptures := fun _ _ => []
  pathExists := fun _ => true
  isFile := fun _ => true
  walkFiles := fun _ => ["r/b.go"]

/-- Concrete environment: every grammar support package installed, every file
unreadable (for example chmod 000). -/
def envUnreadable : Env where
  tsAvailable := true
  grammarAvailable := fun _ => true
  readFile := fun _ => Except.error "Permission denied"
  parseCaptures := fun _ _ => []
  pathExists := fun _ => true
  isFile := fun _ => true
  walkFiles := fun _ => []

/-- Characterization of every entry the directory report can contain: it came from a
file whose suffix classifies to some grammar, its value is that file's extraction
result, and that result is non-empty. -/
def ScanP (env : Env) (kv : String × List Entry) : Prop :=
  ∃ lang, extToLangGet (pathSuffix kv.1) = some lang ∧
    kv.2 = extract_definitions env kv.1 lang ∧
    extract_definitions env kv.1 lang ≠ []

lemma mem_scanStep {env : Env} {acc : List (String × List Entry)} {fp : String}
    {kv : String × List Entry} (h : kv ∈ scanStep env acc fp) :
    kv ∈ acc ∨ ScanP env kv := by
  unfold scanStep at h
  split at h
  · split at h
    · rename_i lang hlang
      split at h
      · exact Or.inl h
      · rcases List.mem_append.mp h with h' | h'
        · exact Or.inl h'
        · rcases List.mem_singleton.mp h' with rfl
          exact Or.inr ⟨lang, hlang, rfl, by assumption⟩
    · exact Or.inl h
  · exact Or.inl h

lemma mem_foldl_scanStep (env : Env) (kv : String × List Entry) :
    ∀ (files : List String) (acc : List (String × List Entry)),
      kv ∈ files.foldl (scanStep env) acc → kv ∈ acc ∨ ScanP env kv := by
  intro files
  induction files with
  | nil => intro acc h; exact Or.inl h
  | cons fp files ih =>
    intro acc h
    rw [List.foldl_cons] at h
    rcases ih (scanStep env acc fp) h with h' | h'
    · exact mem_scanStep h'
    · exact Or.inr h'

lemma mem_scan_directory {env : Env} {root : String} {kv : String × List Entry}
    (h : kv ∈ scan_directory env root) : ScanP env kv := by
  rcases mem_foldl_scanStep env kv (env.walkFiles root) [] h with h' | h'
  · simp at h'
  · exact h'

/-- C1: evaluating the code on the spec's own example — `a.py` holding
`def foo():` on line 1 and `pass` on line 2, python grammar installed — yields
exactly one record, named `foo`, of type `function`, with `start_line 1` but
`end_line 1`, not the `end_line 2` the claim states: the script takes both line
numbers from the `@func.name` capture (the identifier node), never from the
captured `@func.def` definition node. -/
theorem python_single_function_end_line_bug :
    extract_definitions envPy "a.py" "python" = [Entry.defn "function" "foo" 1 1] ∧
    program envPy "a.py" =
      ProgResult.report [("a.py", [Entry.defn "function" "foo" 1 1])] ∧
    Entry.defn "function" "foo" 1 1 ≠ Entry.defn "function" "foo" 1 2 := by
  refine ⟨by decide, by decide, by decide⟩

/-- C2: provided every capture node the external parser returns has a well-formed
span (end row not before start row), every definition record emitted by
`extract_definitions` — any grammar, any readable input — has `start_line ≥ 1`,
`end_line ≥ 1` and `end_line ≥ start_line`. -/
theorem extract_line_bounds (env : Env) (path lang : String)
    (hwf : ∀ l bs c, c ∈ env.parseCaptures l bs →
      c.1.start_point.row ≤ c.1.end_point.row) :
    ∀ t n s e, Entry.defn t n s e ∈ extract_definitions env path lang →
      1 ≤ s ∧ 1 ≤ e ∧ s ≤ e := by
  intro t n s e hm
  unfold extract_definitions at hm
  split at hm
  · simp at hm
  · split at hm
    · simp at hm
    · split at hm
      · rcases List.mem_map.mp hm with ⟨c, hcf, heq⟩
        have hc := (List.mem_filter.mp hcf).1
        have hrow := hwf _ _ c hc
        injection heq with ht hn hs he
        omega
      · simp at hm

/-- C2 witness: the record emitted for the worked python example satisfies the
bounds. -/
theorem extract_line_bounds_witness :
    Entry.defn "function" "foo" 1 1 ∈ extract_definitions envPy "a.py" "python" ∧
    (1 ≤ 1 ∧ 1 ≤ 1 ∧ 1 ≤ 1) := by
  have hwf : ∀ l bs c, c ∈ envPy.parseCaptures l bs →
      c.1.start_point.row ≤ c.1.end_point.row := by
    intro l bs c hc
    dsimp only [envPy] at hc
    split at hc
    · simp only [pyFooCaptures, List.mem_cons, List.not_mem_nil, or_false] at hc
      rcases hc with rfl | rfl <;> decide
    · simp at hc
  exact ⟨by decide,
    extract_line_bounds envPy "a.py" "python" hwf "function" "foo" 1 1 (by decide)⟩

/-- C3 counterexample: a `.c` file (grammar `c`) whose grammar support package is
installed but whose bytes cannot be read yields one error record, not an empty
list — the file read sits before the no-query fallback branch. -/
theorem c_extension_error_record_counterexample :
    extract_definitions envUnreadable "x.c" "c" = [Entry.err "Permission denied"] ∧
    extract_definitions envUnreadable "x.c" "c" ≠ [] := by
  refine ⟨by decide, by decide⟩

/-- C3 amended: for grammar `c` or `cpp`, extraction yields the empty list whenever
the grammar support package is unavailable or the bytes are readable; when the
package loads and the read fails, it yields the single error record instead. -/
theorem c_cpp_extraction_amended (env : Env) (path lang : String)
    (h : lang = "c" ∨ lang = "cpp") :
    (getParser env lang = none → extract_definitions env path lang = []) ∧
    (∀ bs, env.readFile path = Except.ok bs →
      extract_definitions env path lang = []) ∧
    (∀ e u, env.readFile path = Except.error e → getParser env lang = some u →
      extract_definitions env path lang = [Entry.err e]) := by
  refine ⟨?_, ?_, ?_⟩
  · intro hp
    unfold extract_definitions
    rw [hp]
  · intro bs hr
    have hq : hasQuery lang = false := by rcases h with rfl | rfl <;> decide
    unfold extract_definitions
    cases hp : getParser env lang with
    | none => rfl
    | some u => simp [hr, hq]
  · intro e u hr hp
    unfold extract_definitions
    rw [hp, hr]

/-- C3 amended witness: a readable file classified as `c` in an environment without
the C grammar package extracts to the empty list. -/
theorem c_cpp_extraction_amended_witness :
    extract_definitions envPy "a.py" "c" = [] :=
  (c_cpp_extraction_amended envPy "a.py" "c" (Or.inl rfl)).2.1 fooBytes rfl

/-- C4: a supported, existing single file whose grammar support loads but whose
bytes cannot be read produces a report mapping the path to exactly the one record
`\x7b"error": msg\x7d`; the exception is caught inside extraction, so the run ends
in a printed report, not a propagated failure. -/
theorem unreadable_single_file_error_record (env : Env) (path lang msg : String)
    (h1 : env.tsAvailable = true) (h2 : env.pathExists path = true)
    (h3 : env.isFile path = true) (h4 : extToLangGet (pathSuffix path) = some lang)
    (h5 : getParser env lang = some ()) (h6 : env.readFile path = Except.error msg) :
    program env path = ProgResult.report [(path, [Entry.err msg])] := by
  have hx : extract_definitions env path lang = [Entry.err msg] := by
    unfold extract_definitions
    rw [h5, h6]
  unfold program
  simp [h1, h2, h3, h4, hx]

/-- C4 witness: an environment with every grammar installed and every file
unreadable, queried on `a.py`. -/
theorem unreadable_single_file_error_record_witness :
    program envUnreadable "a.py" =
      ProgResult.report [("a.py", [Entry.err "Permission denied"])] :=
  unreadable_single_file_error_record envUnreadable "a.py" "python"
    "Permission denied" rfl rfl rfl (by decide) rfl rfl

/-- C5: every key of the directory-mode report maps to a non-empty list — a file
whose extraction produced zero records is never inserted. -/
theorem scan_report_values_nonempty (env : Env) (root : String)
    (kv : String × List Entry) (h : kv ∈ scan_directory env root) : kv.2 ≠ [] := by
  rcases mem_scan_directory h with ⟨lang, h1, h2, h3⟩
  rw [h2]
  exact h3

/-- C5 witness: the one entry of the directory report over root `r` in the python
environment is non-empty. -/
theorem scan_report_values_nonempty_witness :
    ("r/a.py", [Entry.defn "function" "foo" 1 1]) ∈ scan_directory envPy "r" ∧
    ([Entry.defn "function" "foo" 1 1] : List Entry) ≠ [] :=
  ⟨by decide, scan_report_values_nonempty envPy "r"
    ("r/a.py", [Entry.defn "function" "foo" 1 1]) (by decide)⟩

/-- C6: for an existing single file whose suffix is supported, the report printed in
single-file mode has exactly one key — the queried path — whose value is whatever
extraction returned, empty list allowed. -/
theorem single_file_report_key (env : Env) (path lang : String)
    (h1 : env.tsAvailable = true) (h2 : env.pathExists path = true)
    (h3 : env.isFile path = true)
    (h4 : extToLangGet (pathSuffix path) = some lang) :
    program env path =
      ProgResult.report [(path, extract_definitions env path lang)] := by
  unfold program
  simp [h1, h2, h3, h4]

/-- C6 witness: single-file mode on `a.py` in the python environment. -/
theorem single_file_report_key_witness :
    program envPy "a.py" =
      ProgResult.report [("a.py", extract_definitions envPy "a.py" "python")] :=
  single_file_report_key envPy "a.py" "python" rfl rfl rfl (by decide)

/-- C7: the process exit code is 1 exactly when the `tree_sitter` import fails at
startup or the target path does not exist; every other branch — including the
single file with unsupported extension, where only a message is printed — exits
with 0. -/
theorem exit_code_characterization (env : Env) (path : String) :
    exitCode (program env path) =
      if env.tsAvailable = false ∨ env.pathExists path = false then 1 else 0 := by
  unfold program
  by_cases hts : env.tsAvailable = false
  · simp [hts, exitCode]
  · by_cases hex : env.pathExists path = false
    · simp [hts, hex, exitCode]
    · simp only [hts, hex, if_false, or_self]
      by_cases hf : env.isFile path = true
      · simp only [hf, if_true]
        cases extToLangGet (pathSuffix path) <;> simp [exitCode]
      · simp [hf, exitCode]

/-- C8: when the grammar support package of `lang` does not import, `getParser`
signals unavailability, extraction of any path classified as `lang` yields the
empty list, and no file classified as `lang` ever appears in a directory-mode
report — the file is skipped and the fold over the remaining files continues. -/
theorem unavailable_grammar_soft_skip (env : Env) (lang path root : String)
    (h : env.grammarAvailable lang = false) :
    getParser env lang = none ∧ extract_definitions env path lang = [] ∧
    ∀ kv, kv ∈ scan_directory env root →
      extToLangGet (pathSuffix kv.1) ≠ some lang := by
  have hp : getParser env lang = none := by
    unfold getParser
    rw [h]
    simp
  have hx : ∀ p, extract_definitions env p lang = [] := by
    intro p
    unfold extract_definitions
    rw [hp]
  refine ⟨hp, hx path, ?_⟩
  intro kv hkv hlang
  rcases mem_scan_directory hkv with ⟨l', h1, h2, h3⟩
  rw [hlang] at h1
  obtain rfl : l' = lang := (Option.some.inj h1).symm
  exact h3 (hx kv.1)

/-- C8 witness: the go grammar is uninstalled in `envNoGrammar`, so the parser is
unavailable and `b.go` extracts to nothing. -/
theorem unavailable_grammar_soft_skip_witness :
    getParser envNoGrammar "go" = none ∧
    extract_definitions envNoGrammar "b.go" "go" = [] := by
  have a := unavailable_grammar_soft_skip envNoGrammar "go" "b.go" "r" rfl
  exact ⟨a.1, a.2.1⟩

/-- C9: when the grammar support package of a file's classified grammar is
unavailable, extraction returns the empty list for every possible file-read
behavior — the availability check precedes the read, so even an unreadable file
produces no error record. -/
theorem unavailable_parser_skips_read (env : Env) (path lang : String)
    (h : env.grammarAvailable lang = false) :
    ∀ rf : String → Except String (List Nat),
      extract_definitions { env with readFile := rf } path lang = [] := by
  intro rf
  have hp : getParser { env with readFile := rf } lang = none := by
    unfold getParser
    have h2 : ({ env with readFile := rf } : Env).grammarAvailable lang = false := h
    rw [h2]
    simp
  unfold extract_definitions
  rw [hp]

/-- C9 witness: python grammar uninstalled and `a.py` unreadable still yields the
empty list, not an error record. -/
theorem unavailable_parser_skips_read_witness :
    extract_definitions
      { envNoGrammar with readFile := fun _ => Except.error "Permission denied" }
      "a.py" "python" = [] :=
  unavailable_parser_skips_read envNoGrammar "a.py" "python" rfl
    (fun _ => Except.error "Permission denied")

/-- C10: a file named exactly `.py` passes the walker's `endswith` filter, yet its
`pathlib` suffix is empty and classifies to no grammar, so it is never extracted;
and every key the directory report does contain has a suffix that is a key of
`EXT_TO_LANG`. -/
theorem hidden_dotfile_filtered :
    (EXT_TO_LANG.any fun p => strEndsWith "r/.py" p.1) = true ∧
    pathSuffix "r/.py" = "" ∧
    extToLangGet (pathSuffix "r/.py") = none ∧
    ∀ env root kv, kv ∈ scan_directory env root →
      (∃ lang, extToLangGet (pathSuffix kv.1) = some lang) ∧ kv.1 ≠ "r/.py" := by
  refine ⟨by decide, by decide, by decide, ?_⟩
  intro env root kv h
  rcases mem_scan_directory h with ⟨lang, h1, h2, h3⟩
  refine ⟨⟨lang, h1⟩, ?_⟩
  intro hkv
  rw [hkv] at h1
  have h0 : extToLangGet (pathSuffix "r/.py") = none := by decide
  rw [h0] at h1
  exact Option.noConfusion h1

/-- C10 witness: the report entry `r/a.py` of the python environment has suffix
`.py`, a key of the table, and is not the hidden file. -/
theorem hidden_dotfile_filtered_witness :
    (∃ lang, extToLangGet (pathSuffix "r/a.py") = some lang) ∧
    "r/a.py" ≠ "r/.py" :=
  hidden_dotfile_filtered.2.2.2 envPy "r"
    ("r/a.py", [Entry.defn "function" "foo" 1 1]) (by decide)

end CodeNavigator
